import Mathlib

/-!
# Verification of the tx-engine transaction processing core

Shallow embedding of the transaction engine (`src/engine/transaction_engine.rs`,
`src/engine/account.rs`, `src/engine/transaction_record.rs`,
`src/engine/transaction_type.rs`) and proofs about the claims of its
specification.

Modelling conventions:
- Monetary amounts (`f32` in the source) are modelled as exact rationals `ℚ`.
  The specification (§9) allows substituting an exact decimal type provided the
  literal sign/comparison semantics are preserved; `Rat.is_sign_negative` below
  models `f32::is_sign_negative` as strict negativity (rationals have no
  negative zero).
- The `HashMap<u32, TransactionDetails>` of an account is modelled as an
  association list with insert-replacing-existing-key semantics (`txInsert`),
  first-match lookup (`txLookup`), and in-place field mutation of the entry
  under a key (`txSetDisputed`, modelling `get_mut` followed by a field write).
- The registry `RwLock<Vec<AccountAccessor>>` is modelled as a `List Account`;
  `clientExists` models the `any` existence check, `findAccount` the `find` by
  client id, appending models `push`, and `updateAccount` models mutating the
  found account in place through its lock.
- `process_transaction` mirrors the source control flow branch by branch,
  including the structurally unreachable error branches (`context(..)` calls);
  `process_records` mirrors the driver loop: it threads the registry state and
  stops at the first error, returning the state reached so far (the Rust
  engine mutates `self.accounts` in place, so prior mutations stand).
-/

/-- `TransactionType` from `transaction_type.rs`. -/
inductive TransactionType where
  | Deposit
  | Withdraw
  | Dispute
  | Resolve
  | Chargeback
deriving DecidableEq, BEq, Repr

/-- `TransactionRecord` from `transaction_record.rs`. Client ids (`u16`) and
transaction ids (`u32`) are modelled as `Nat`; the numeric bounds play no role
in any claim. -/
structure TransactionRecord where
  type : TransactionType
  client_id : Nat
  transaction_id : Nat
  amount : Option ℚ
deriving DecidableEq

/-- `TransactionRecord::is_valid` from `transaction_record.rs`. -/
def TransactionRecord.is_valid (tx : TransactionRecord) : Bool :=
  let has_amount := tx.amount.isSome
  let valid_cases_with_amount := [TransactionType.Deposit, TransactionType.Withdraw]
  let valid_cases_without_amount :=
    [TransactionType.Dispute, TransactionType.Resolve, TransactionType.Chargeback]
  let valid_tx_with_amount := has_amount && valid_cases_with_amount.contains tx.type
  let valid_tx_without_amount := !has_amount && valid_cases_without_amount.contains tx.type
  valid_tx_with_amount || valid_tx_without_amount

/-- `TransactionDetails` from `account.rs`. -/
structure TransactionDetails where
  amount : ℚ
  disputed : Bool
deriving DecidableEq

/-- `TransactionDetails::new` from `account.rs`. -/
def TransactionDetails.new (amount : ℚ) : TransactionDetails :=
  { amount := amount, disputed := false }

/-- `Account` from `account.rs`. The `transactions` hash map is modelled as an
association list from transaction id to `TransactionDetails`. -/
structure Account where
  client_id : Nat
  held_balance : ℚ
  available_balance : ℚ
  locked : Bool
  transactions : List (Nat × TransactionDetails)
deriving DecidableEq

/-- `Account::new` from `account.rs`. -/
def Account.new (client_id : Nat) : Account :=
  { client_id := client_id
    held_balance := 0
    available_balance := 0
    locked := false
    transactions := [] }

/-- `Account::total_balance` from `account.rs`. -/
def Account.total_balance (a : Account) : ℚ :=
  a.available_balance + a.held_balance

/-- `f32::is_sign_negative` on the exact-rational model of amounts: strict
negativity (rationals have no negative zero). -/
def Rat.is_sign_negative (q : ℚ) : Bool :=
  decide (q < 0)

/-- `HashMap::insert`: replace the value stored under an existing key, or add
the binding if the key is absent. -/
def txInsert (m : List (Nat × TransactionDetails)) (k : Nat) (v : TransactionDetails) :
    List (Nat × TransactionDetails) :=
  match m with
  | [] => [(k, v)]
  | (k2, v2) :: rest => if k2 = k then (k, v) :: rest else (k2, v2) :: txInsert rest k v

/-- `HashMap::get`: first binding with the given key. -/
def txLookup (m : List (Nat × TransactionDetails)) (k : Nat) : Option TransactionDetails :=
  match m with
  | [] => none
  | (k2, v) :: rest => if k2 = k then some v else txLookup rest k

/-- `HashMap::get_mut(&k)` followed by writing the `disputed` field: update the
`disputed` flag of the binding under `k`, leaving everything else alone. -/
def txSetDisputed (m : List (Nat × TransactionDetails)) (k : Nat) (b : Bool) :
    List (Nat × TransactionDetails) :=
  match m with
  | [] => []
  | (k2, v) :: rest =>
    if k2 = k then (k2, { v with disputed := b }) :: txSetDisputed rest k b
    else (k2, v) :: txSetDisputed rest k b

/-- The `accounts.iter().any(|a| a.client_id == tx.client_id)` existence check
of `process_transaction`. -/
def clientExists (st : List Account) (cid : Nat) : Bool :=
  match st with
  | [] => false
  | a :: rest => if a.client_id = cid then true else clientExists rest cid

/-- The `accounts.iter().find(|a| a.client_id == tx.client_id)` lookup of
`process_transaction`. -/
def findAccount (st : List Account) (cid : Nat) : Option Account :=
  match st with
  | [] => none
  | a :: rest => if a.client_id = cid then some a else findAccount rest cid

/-- Mutating the account found by `findAccount` in place (through its mutex):
replace the first account with the given client id. -/
def updateAccount (st : List Account) (cid : Nat) (b : Account) : List Account :=
  match st with
  | [] => []
  | a :: rest => if a.client_id = cid then b :: rest else a :: updateAccount rest cid b

/-- `TransactionEngine::process_transaction` from `transaction_engine.rs`,
branch by branch. The state is the registry (list of accounts); the result is
`Except` the error raised. The `context`/lookup error branches of the source
are kept even though they are unreachable. -/
def process_transaction (accounts : List Account) (tx : TransactionRecord) :
    Except String (List Account) :=
  -- Validate transaction
  if !tx.is_valid then .error "Invalid transaction." else
  -- Check whether the client already has an account
  let client_exists := clientExists accounts tx.client_id
  -- Create account if it doesn't exist
  let accounts1 := if client_exists then accounts
                   else accounts ++ [Account.new tx.client_id]
  -- Find the account for the current transaction
  match findAccount accounts1 tx.client_id with
  | none => .error "Unable to locale account by client id."
  | some acc =>
    -- Check if account is locked
    if acc.locked then .ok accounts1 else
    -- Record transaction if it has an amount (deposit, withdrawal)
    let acc1 := match tx.amount with
      | some amount =>
        { acc with transactions :=
            txInsert acc.transactions tx.transaction_id (TransactionDetails.new amount) }
      | none => acc
    match tx.type with
    -- Handle deposit
    | .Deposit =>
      match tx.amount with
      | none => .error "Unable to get amount from transaction."
      | some amount =>
        .ok (updateAccount accounts1 tx.client_id
          { acc1 with available_balance := acc1.available_balance + amount })
    -- Handle withdrawal
    | .Withdraw =>
      match tx.amount with
      | none => .error "Unable to get amount from transaction."
      | some amount =>
        -- Check for sufficient funds
        if (acc1.available_balance - amount).is_sign_negative then
          -- Insufficient funds. Stop withdrawal but don't error out.
          .ok (updateAccount accounts1 tx.client_id acc1)
        else
          .ok (updateAccount accounts1 tx.client_id
            { acc1 with available_balance := acc1.available_balance - amount })
    -- Handle dispute
    | .Dispute =>
      match txLookup acc1.transactions tx.transaction_id with
      | some original_tx =>
        if original_tx.disputed then .ok (updateAccount accounts1 tx.client_id acc1)
        else
          .ok (updateAccount accounts1 tx.client_id
            { acc1 with
                transactions := txSetDisputed acc1.transactions tx.transaction_id true
                available_balance := acc1.available_balance - original_tx.amount
                held_balance := acc1.held_balance + original_tx.amount })
      | none => .ok (updateAccount accounts1 tx.client_id acc1)
    -- Handle dispute resolution
    | .Resolve =>
      match txLookup acc1.transactions tx.transaction_id with
      | some original_tx =>
        if !original_tx.disputed then .ok (updateAccount accounts1 tx.client_id acc1)
        else
          .ok (updateAccount accounts1 tx.client_id
            { acc1 with
                transactions := txSetDisputed acc1.transactions tx.transaction_id false
                available_balance := acc1.available_balance + original_tx.amount
                held_balance := acc1.held_balance - original_tx.amount })
      | none => .ok (updateAccount accounts1 tx.client_id acc1)
    -- Handle chargeback
    | .Chargeback =>
      match txLookup acc1.transactions tx.transaction_id with
      | some original_tx =>
        if !original_tx.disputed then .ok (updateAccount accounts1 tx.client_id acc1)
        else
          .ok (updateAccount accounts1 tx.client_id
            { acc1 with
                transactions := txSetDisputed acc1.transactions tx.transaction_id false
                held_balance := acc1.held_balance - original_tx.amount
                locked := true })
      | none => .ok (updateAccount accounts1 tx.client_id acc1)

/-- `TransactionEngine::process_records`: apply records in order, stopping at
the first error. The engine mutates its registry in place, so the state
reached before the failing record is kept alongside the error. -/
def process_records (accounts : List Account) (records : List TransactionRecord) :
    List Account × Except String Unit :=
  match records with
  | [] => (accounts, .ok ())
  | r :: rest =>
    match process_transaction accounts r with
    | .ok accounts2 => process_records accounts2 rest
    | .error e => (accounts, .error e)

/-- Sum of `amount` over the entries of a transactions map whose `disputed`
flag is set (the quantity the spec's held-balance invariant speaks about). -/
def disputedSum (m : List (Nat × TransactionDetails)) : ℚ :=
  match m with
  | [] => 0
  | p :: rest => (if p.2.disputed then p.2.amount else 0) + disputedSum rest

/-- Transaction ids of the amount-carrying records of a list (the ids under
which `TransactionDetails` entries get stored). -/
def amtIds (rs : List TransactionRecord) : List Nat :=
  (rs.filter (fun r => r.amount.isSome)).map (fun r => r.transaction_id)

/-- The spec's per-account invariant: `held_balance` equals the sum of
`amount` over all disputed entries of the transactions map. -/
def heldInvariant (st : List Account) : Prop :=
  ∀ a ∈ st, a.held_balance = disputedSum a.transactions

/-- Keys of a transactions map are pairwise distinct (true of every reachable
map, since it models a `HashMap`). -/
def keysNodup (m : List (Nat × TransactionDetails)) : Prop :=
  (m.map Prod.fst).Nodup

/-- All accounts of a registry have duplicate-free transaction maps. -/
def txKeysOk (st : List Account) : Prop :=
  ∀ a ∈ st, keysNodup a.transactions

/-! ## Lemmas about the transactions-map operations -/

theorem txLookup_txInsert_self (m : List (Nat × TransactionDetails)) (k : Nat)
    (v : TransactionDetails) : txLookup (txInsert m k v) k = some v := by
  induction m with
  | nil => simp [txInsert, txLookup]
  | cons p rest ih =>
    obtain ⟨k2, v2⟩ := p
    by_cases h : k2 = k
    · simp [txInsert, txLookup, h]
    · simp [txInsert, txLookup, h, ih]

theorem txInsert_of_lookup_none (m : List (Nat × TransactionDetails)) (k : Nat)
    (v : TransactionDetails) (h : txLookup m k = none) : txInsert m k v = m ++ [(k, v)] := by
  induction m with
  | nil => simp [txInsert]
  | cons p rest ih =>
    obtain ⟨k2, v2⟩ := p
    by_cases hk : k2 = k
    · simp [txLookup, hk] at h
    · simp [txLookup, hk] at h
      simp [txInsert, hk, ih h]

theorem disputedSum_append (m1 m2 : List (Nat × TransactionDetails)) :
    disputedSum (m1 ++ m2) = disputedSum m1 + disputedSum m2 := by
  induction m1 with
  | nil => simp [disputedSum]
  | cons p rest ih => simp [disputedSum, ih]; ring

theorem txLookup_eq_none_iff (m : List (Nat × TransactionDetails)) (k : Nat) :
    txLookup m k = none ↔ k ∉ m.map Prod.fst := by
  induction m with
  | nil => simp [txLookup]
  | cons p rest ih =>
    obtain ⟨k2, v2⟩ := p
    by_cases hk : k2 = k
    · subst hk
      simp [txLookup]
    · simp only [txLookup, if_neg hk, List.map_cons, List.mem_cons, not_or, ih]
      constructor
      · exact fun h => ⟨fun e => hk e.symm, h⟩
      · exact fun h => h.2

theorem disputedSum_txInsert_new (m : List (Nat × TransactionDetails)) (k : Nat) (a : ℚ)
    (h : txLookup m k = none) :
    disputedSum (txInsert m k (TransactionDetails.new a)) = disputedSum m := by
  rw [txInsert_of_lookup_none m k _ h, disputedSum_append]
  simp [disputedSum, TransactionDetails.new]

theorem keys_txInsert_of_lookup_some (m : List (Nat × TransactionDetails)) (k : Nat)
    (v : TransactionDetails) (h : txLookup m k ≠ none) :
    (txInsert m k v).map Prod.fst = m.map Prod.fst := by
  induction m with
  | nil => simp [txLookup] at h
  | cons p rest ih =>
    obtain ⟨k2, v2⟩ := p
    by_cases hk : k2 = k
    · subst hk
      simp [txInsert]
    · simp only [txLookup, if_neg hk] at h
      simp only [txInsert, if_neg hk, List.map_cons, ih h]

theorem keysNodup_txInsert (m : List (Nat × TransactionDetails)) (k : Nat)
    (v : TransactionDetails) (h : keysNodup m) : keysNodup (txInsert m k v) := by
  by_cases hl : txLookup m k = none
  · rw [keysNodup, txInsert_of_lookup_none m k v hl, List.map_append, List.map_cons,
      List.map_nil, List.nodup_append]
    refine ⟨h, by simp, ?_⟩
    intro x hx hx2
    simp at hx2
    exact (txLookup_eq_none_iff m k).1 hl (hx2 ▸ hx)
  · rw [keysNodup, keys_txInsert_of_lookup_some m k v hl]
    exact h

theorem keys_txSetDisputed (m : List (Nat × TransactionDetails)) (k : Nat) (b : Bool) :
    (txSetDisputed m k b).map Prod.fst = m.map Prod.fst := by
  induction m with
  | nil => simp [txSetDisputed]
  | cons p rest ih =>
    obtain ⟨k2, v2⟩ := p
    by_cases hk : k2 = k
    · simp only [txSetDisputed, if_pos hk, List.map_cons, ih]
    · simp only [txSetDisputed, if_neg hk, List.map_cons, ih]

theorem txLookup_txSetDisputed_self (m : List (Nat × TransactionDetails)) (k : Nat) (b : Bool)
    (d : TransactionDetails) (h : txLookup m k = some d) :
    txLookup (txSetDisputed m k b) k = some { d with disputed := b } := by
  induction m with
  | nil => simp [txLookup] at h
  | cons p rest ih =>
    obtain ⟨k2, v2⟩ := p
    by_cases hk : k2 = k
    · simp only [txLookup, if_pos hk] at h
      obtain rfl : v2 = d := by simpa using h
      simp only [txSetDisputed, if_pos hk, txLookup, if_pos hk]
    · simp only [txLookup, if_neg hk] at h
      simp only [txSetDisputed, if_neg hk, txLookup, if_neg hk, ih h]

theorem txSetDisputed_of_not_mem (m : List (Nat × TransactionDetails)) (k : Nat) (b : Bool)
    (h : k ∉ m.map Prod.fst) : txSetDisputed m k b = m := by
  induction m with
  | nil => simp [txSetDisputed]
  | cons p rest ih =>
    obtain ⟨k2, v2⟩ := p
    simp only [List.map_cons, List.mem_cons, not_or] at h
    have hk : ¬ k2 = k := fun e => h.1 e.symm
    simp only [txSetDisputed, if_neg hk, ih h.2]

theorem disputedSum_txSetDisputed (m : List (Nat × TransactionDetails)) (k : Nat) (b : Bool)
    (d : TransactionDetails) (hnd : keysNodup m) (h : txLookup m k = some d) :
    disputedSum (txSetDisputed m k b) =
      disputedSum m - (if d.disputed then d.amount else 0) + (if b then d.amount else 0) := by
  induction m with
  | nil => simp [txLookup] at h
  | cons p rest ih =>
    obtain ⟨k2, v2⟩ := p
    rw [keysNodup, List.map_cons, List.nodup_cons] at hnd
    by_cases hk : k2 = k
    · subst hk
      have h : v2 = d := by simpa [txLookup] using h
      rw [show txSetDisputed ((k2, v2) :: rest) k2 b =
          (k2, { v2 with disputed := b }) :: txSetDisputed rest k2 b by
        simp [txSetDisputed]]
      rw [txSetDisputed_of_not_mem rest k2 b hnd.1]
      simp only [disputedSum, ← h]
      cases hv : v2.disputed <;> cases b <;> simp [hv] <;> ring
    · simp only [txLookup, if_neg hk] at h
      have tail := ih hnd.2 h
      simp only [txSetDisputed, if_neg hk, disputedSum, tail]
      ring

/-! ## Lemmas about the account registry -/

theorem findAccount_isSome_of_clientExists (st : List Account) (cid : Nat)
    (h : clientExists st cid = true) : (findAccount st cid).isSome := by
  induction st with
  | nil => simp [clientExists] at h
  | cons a rest ih =>
    by_cases ha : a.client_id = cid
    · simp [findAccount, ha]
    · simp [clientExists, ha] at h
      simp [findAccount, ha, ih h]

theorem clientExists_of_findAccount (st : List Account) (cid : Nat) (acc : Account)
    (h : findAccount st cid = some acc) : clientExists st cid = true := by
  induction st with
  | nil => simp [findAccount] at h
  | cons a rest ih =>
    by_cases ha : a.client_id = cid
    · simp [clientExists, ha]
    · simp [findAccount, ha] at h
      simp [clientExists, ha, ih h]

theorem findAccount_eq_none_of_not_exists (st : List Account) (cid : Nat)
    (h : clientExists st cid = false) : findAccount st cid = none := by
  induction st with
  | nil => simp [findAccount]
  | cons a rest ih =>
    by_cases ha : a.client_id = cid
    · simp [clientExists, ha] at h
    · simp [clientExists, ha] at h
      simp [findAccount, ha, ih h]

theorem findAccount_mem (st : List Account) (cid : Nat) (acc : Account)
    (h : findAccount st cid = some acc) : acc ∈ st := by
  induction st with
  | nil => simp [findAccount] at h
  | cons a rest ih =>
    by_cases ha : a.client_id = cid
    · simp [findAccount, ha] at h
      simp [h]
    · simp [findAccount, ha] at h
      simp [ih h]

theorem findAccount_client_id (st : List Account) (cid : Nat) (acc : Account)
    (h : findAccount st cid = some acc) : acc.client_id = cid := by
  induction st with
  | nil => simp [findAccount] at h
  | cons a rest ih =>
    by_cases ha : a.client_id = cid
    · simp [findAccount, ha] at h
      rw [← h]; exact ha
    · simp [findAccount, ha] at h
      exact ih h

theorem findAccount_append_none (st l2 : List Account) (cid : Nat)
    (h : findAccount st cid = none) : findAccount (st ++ l2) cid = findAccount l2 cid := by
  induction st with
  | nil => simp [findAccount]
  | cons a rest ih =>
    by_cases ha : a.client_id = cid
    · simp [findAccount, ha] at h
    · simp [findAccount, ha] at h ⊢
      exact ih h

theorem findAccount_updateAccount_self (st : List Account) (cid : Nat) (acc b : Account)
    (h : findAccount st cid = some acc) (hb : b.client_id = cid) :
    findAccount (updateAccount st cid b) cid = some b := by
  induction st with
  | nil => simp [findAccount] at h
  | cons a rest ih =>
    by_cases ha : a.client_id = cid
    · simp [updateAccount, findAccount, ha, hb]
    · simp [findAccount, ha] at h
      simp [updateAccount, findAccount, ha, ih h]

theorem updateAccount_self_eq (st : List Account) (cid : Nat) (acc : Account)
    (h : findAccount st cid = some acc) : updateAccount st cid acc = st := by
  induction st with
  | nil => simp [updateAccount]
  | cons a rest ih =>
    by_cases ha : a.client_id = cid
    · simp only [findAccount, if_pos ha] at h
      obtain rfl : a = acc := by simpa using h
      simp [updateAccount, ha]
    · simp [findAccount, ha] at h
      simp [updateAccount, ha, ih h]

theorem mem_updateAccount (st : List Account) (cid : Nat) (b x : Account)
    (h : x ∈ updateAccount st cid b) : x = b ∨ x ∈ st := by
  induction st with
  | nil => simp [updateAccount] at h
  | cons a rest ih =>
    by_cases ha : a.client_id = cid
    · simp [updateAccount, ha] at h
      rcases h with h | h
      · exact .inl h
      · exact .inr (by simp [h])
    · simp [updateAccount, ha] at h
      rcases h with h | h
      · exact .inr (by simp [h])
      · rcases ih h with h' | h'
        · exact .inl h'
        · exact .inr (by simp [h'])

theorem clientExists_append_new (st : List Account) (cid : Nat) :
    clientExists (st ++ [Account.new cid]) cid = true := by
  induction st with
  | nil => simp [clientExists, Account.new]
  | cons a rest ih => by_cases ha : a.client_id = cid <;> simp [clientExists, ha, ih]

theorem findAccount_append_new (st : List Account) (cid : Nat)
    (hex : clientExists st cid = false) :
    findAccount (st ++ [Account.new cid]) cid = some (Account.new cid) := by
  rw [findAccount_append_none st _ cid (findAccount_eq_none_of_not_exists st cid hex)]
  simp [findAccount, Account.new]

/-! ## Shape of a valid record -/

theorem is_valid_cases (tx : TransactionRecord) (h : tx.is_valid = true) :
    (∃ a, tx.amount = some a ∧
        (tx.type = TransactionType.Deposit ∨ tx.type = TransactionType.Withdraw)) ∨
    (tx.amount = none ∧ (tx.type = TransactionType.Dispute ∨
        tx.type = TransactionType.Resolve ∨ tx.type = TransactionType.Chargeback)) := by
  obtain ⟨ty, cid, t, amt⟩ := tx
  rcases amt with _ | a <;> cases ty
  all_goals first
    | exact Or.inl ⟨a, rfl, Or.inl rfl⟩
    | exact Or.inl ⟨a, rfl, Or.inr rfl⟩
    | exact Or.inr ⟨rfl, Or.inl rfl⟩
    | exact Or.inr ⟨rfl, Or.inr (Or.inl rfl)⟩
    | exact Or.inr ⟨rfl, Or.inr (Or.inr rfl)⟩
    | exact Bool.noConfusion h

/-! ## Branch-by-branch characterization of `process_transaction` -/

theorem pt_invalid (st : List Account) (tx : TransactionRecord) (hv : tx.is_valid = false) :
    process_transaction st tx = .error "Invalid transaction." := by
  simp [process_transaction, hv]

theorem pt_creation (st : List Account) (tx : TransactionRecord)
    (hex : clientExists st tx.client_id = false) :
    process_transaction st tx = process_transaction (st ++ [Account.new tx.client_id]) tx := by
  simp only [process_transaction, hex, clientExists_append_new st tx.client_id,
    Bool.false_eq_true, if_false, if_true]

theorem pt_locked (st : List Account) (tx : TransactionRecord) (acc : Account)
    (hv : tx.is_valid = true) (hf : findAccount st tx.client_id = some acc)
    (hl : acc.locked = true) : process_transaction st tx = .ok st := by
  have hex := clientExists_of_findAccount st tx.client_id acc hf
  simp +decide [process_transaction, hv, hex, hf, hl]

theorem pt_deposit (st : List Account) (cid t : Nat) (a : ℚ) (acc : Account)
    (hf : findAccount st cid = some acc) (hl : acc.locked = false) :
    process_transaction st ⟨.Deposit, cid, t, some a⟩ =
      .ok (updateAccount st cid
        { acc with
            transactions := txInsert acc.transactions t (TransactionDetails.new a)
            available_balance := acc.available_balance + a }) := by
  have hex := clientExists_of_findAccount st cid acc hf
  simp +decide [process_transaction, TransactionRecord.is_valid, hex, hf, hl]

theorem pt_withdraw_insufficient (st : List Account) (cid t : Nat) (a : ℚ) (acc : Account)
    (hf : findAccount st cid = some acc) (hl : acc.locked = false)
    (hneg : acc.available_balance - a < 0) :
    process_transaction st ⟨.Withdraw, cid, t, some a⟩ =
      .ok (updateAccount st cid
        { acc with transactions := txInsert acc.transactions t (TransactionDetails.new a) }) := by
  have hex := clientExists_of_findAccount st cid acc hf
  simp +decide [process_transaction, TransactionRecord.is_valid, hex, hf, hl,
    Rat.is_sign_negative, hneg]

theorem pt_withdraw_sufficient (st : List Account) (cid t : Nat) (a : ℚ) (acc : Account)
    (hf : findAccount st cid = some acc) (hl : acc.locked = false)
    (hpos : ¬ acc.available_balance - a < 0) :
    process_transaction st ⟨.Withdraw, cid, t, some a⟩ =
      .ok (updateAccount st cid
        { acc with
            transactions := txInsert acc.transactions t (TransactionDetails.new a)
            available_balance := acc.available_balance - a }) := by
  have hex := clientExists_of_findAccount st cid acc hf
  simp +decide [process_transaction, TransactionRecord.is_valid, hex, hf, hl,
    Rat.is_sign_negative, hpos]

theorem pt_dispute_missing (st : List Account) (cid t : Nat) (acc : Account)
    (hf : findAccount st cid = some acc) (hl : acc.locked = false)
    (hlk : txLookup acc.transactions t = none) :
    process_transaction st ⟨.Dispute, cid, t, none⟩ = .ok st := by
  have hex := clientExists_of_findAccount st cid acc hf
  simp +decide [process_transaction, TransactionRecord.is_valid, hex, hf, hl, hlk,
    updateAccount_self_eq st cid acc hf]

theorem pt_dispute_redispute (st : List Account) (cid t : Nat) (acc : Account)
    (d : TransactionDetails) (hf : findAccount st cid = some acc) (hl : acc.locked = false)
    (hlk : txLookup acc.transactions t = some d) (hd : d.disputed = true) :
    process_transaction st ⟨.Dispute, cid, t, none⟩ = .ok st := by
  have hex := clientExists_of_findAccount st cid acc hf
  simp +decide [process_transaction, TransactionRecord.is_valid, hex, hf, hl, hlk, hd,
    updateAccount_self_eq st cid acc hf]

theorem pt_dispute_open (st : List Account) (cid t : Nat) (acc : Account)
    (d : TransactionDetails) (hf : findAccount st cid = some acc) (hl : acc.locked = false)
    (hlk : txLookup acc.transactions t = some d) (hd : d.disputed = false) :
    process_transaction st ⟨.Dispute, cid, t, none⟩ =
      .ok (updateAccount st cid
        { acc with
            transactions := txSetDisputed acc.transactions t true
            available_balance := acc.available_balance - d.amount
            held_balance := acc.held_balance + d.amount }) := by
  have hex := clientExists_of_findAccount st cid acc hf
  simp +decide [process_transaction, TransactionRecord.is_valid, hex, hf, hl, hlk, hd]

theorem pt_resolve_missing (st : List Account) (cid t : Nat) (acc : Account)
    (hf : findAccount st cid = some acc) (hl : acc.locked = false)
    (hlk : txLookup acc.transactions t = none) :
    process_transaction st ⟨.Resolve, cid, t, none⟩ = .ok st := by
  have hex := clientExists_of_findAccount st cid acc hf
  simp +decide [process_transaction, TransactionRecord.is_valid, hex, hf, hl, hlk,
    updateAccount_self_eq st cid acc hf]

theorem pt_resolve_undisputed (st : List Account) (cid t : Nat) (acc : Account)
    (d : TransactionDetails) (hf : findAccount st cid = some acc) (hl : acc.locked = false)
    (hlk : txLookup acc.transactions t = some d) (hd : d.disputed = false) :
    process_transaction st ⟨.Resolve, cid, t, none⟩ = .ok st := by
  have hex := clientExists_of_findAccount st cid acc hf
  simp +decide [process_transaction, TransactionRecord.is_valid, hex, hf, hl, hlk, hd,
    updateAccount_self_eq st cid acc hf]

theorem pt_resolve_open (st : List Account) (cid t : Nat) (acc : Account)
    (d : TransactionDetails) (hf : findAccount st cid = some acc) (hl : acc.locked = false)
    (hlk : txLookup acc.transactions t = some d) (hd : d.disputed = true) :
    process_transaction st ⟨.Resolve, cid, t, none⟩ =
      .ok (updateAccount st cid
        { acc with
            transactions := txSetDisputed acc.transactions t false
            available_balance := acc.available_balance + d.amount
            held_balance := acc.held_balance - d.amount }) := by
  have hex := clientExists_of_findAccount st cid acc hf
  simp +decide [process_transaction, TransactionRecord.is_valid, hex, hf, hl, hlk, hd]

theorem pt_chargeback_missing (st : List Account) (cid t : Nat) (acc : Account)
    (hf : findAccount st cid = some acc) (hl : acc.locked = false)
    (hlk : txLookup acc.transactions t = none) :
    process_transaction st ⟨.Chargeback, cid, t, none⟩ = .ok st := by
  have hex := clientExists_of_findAccount st cid acc hf
  simp +decide [process_transaction, TransactionRecord.is_valid, hex, hf, hl, hlk,
    updateAccount_self_eq st cid acc hf]

theorem pt_chargeback_undisputed (st : List Account) (cid t : Nat) (acc : Account)
    (d : TransactionDetails) (hf : findAccount st cid = some acc) (hl : acc.locked = false)
    (hlk : txLookup acc.transactions t = some d) (hd : d.disputed = false) :
    process_transaction st ⟨.Chargeback, cid, t, none⟩ = .ok st := by
  have hex := clientExists_of_findAccount st cid acc hf
  simp +decide [process_transaction, TransactionRecord.is_valid, hex, hf, hl, hlk, hd,
    updateAccount_self_eq st cid acc hf]

theorem pt_chargeback_open (st : List Account) (cid t : Nat) (acc : Account)
    (d : TransactionDetails) (hf : findAccount st cid = some acc) (hl : acc.locked = false)
    (hlk : txLookup acc.transactions t = some d) (hd : d.disputed = true) :
    process_transaction st ⟨.Chargeback, cid, t, none⟩ =
      .ok (updateAccount st cid
        { acc with
            transactions := txSetDisputed acc.transactions t false
            held_balance := acc.held_balance - d.amount
            locked := true }) := by
  have hex := clientExists_of_findAccount st cid acc hf
  simp +decide [process_transaction, TransactionRecord.is_valid, hex, hf, hl, hlk, hd]

theorem txLookup_txInsert_ne (m : List (Nat × TransactionDetails)) (k : Nat)
    (v : TransactionDetails) (k2 : Nat) (h : k2 ≠ k) :
    txLookup (txInsert m k v) k2 = txLookup m k2 := by
  have h' : ¬ k = k2 := fun e => h e.symm
  induction m with
  | nil => simp [txInsert, txLookup, h']
  | cons p rest ih =>
    obtain ⟨k3, v3⟩ := p
    by_cases hk : k3 = k
    · subst hk
      simp [txInsert, txLookup, h']
    · simp only [txInsert, if_neg hk, txLookup, ih]

theorem txLookup_txSetDisputed_ne (m : List (Nat × TransactionDetails)) (k : Nat) (b : Bool)
    (k2 : Nat) (h : k2 ≠ k) :
    txLookup (txSetDisputed m k b) k2 = txLookup m k2 := by
  induction m with
  | nil => simp [txSetDisputed, txLookup]
  | cons p rest ih =>
    obtain ⟨k3, v3⟩ := p
    by_cases hk : k3 = k
    · subst hk
      simp only [txSetDisputed, if_pos rfl, txLookup, if_neg (fun e : k3 = k2 => h e.symm), ih]
    · simp only [txSetDisputed, if_neg hk, txLookup, ih]

theorem amtIds_cons (r : TransactionRecord) (rs : List TransactionRecord) :
    amtIds (r :: rs) =
      if r.amount.isSome then r.transaction_id :: amtIds rs else amtIds rs := by
  by_cases hs : r.amount.isSome = true <;> simp [amtIds, List.filter, hs]

theorem mem_amtIds (r : TransactionRecord) (rs : List TransactionRecord) (hr : r ∈ rs)
    (hs : r.amount.isSome = true) : r.transaction_id ∈ amtIds rs := by
  simp only [amtIds, List.mem_map, List.mem_filter]
  exact ⟨r, ⟨hr, hs⟩, rfl⟩

/-! ## Preservation of the held-balance invariant by a single step -/

theorem step_invariants (st st2 : List Account) (tx : TransactionRecord)
    (hok : process_transaction st tx = .ok st2)
    (hInv : heldInvariant st) (hNd : txKeysOk st)
    (hFresh : tx.amount.isSome = true →
      ∀ a ∈ st, txLookup a.transactions tx.transaction_id = none) :
    heldInvariant st2 ∧ txKeysOk st2 ∧
    ∀ a2 ∈ st2, ∀ k d, txLookup a2.transactions k = some d →
      (tx.amount.isSome = true ∧ k = tx.transaction_id) ∨
      ∃ a ∈ st, ∃ d2, txLookup a.transactions k = some d2 := by
  by_cases hv : tx.is_valid = true
  case neg =>
    rw [pt_invalid st tx (by simpa using hv)] at hok
    exact absurd hok (by simp)
  case pos =>
  -- reduce the account-creation case to the account-exists case
  suffices h : ∀ st : List Account, clientExists st tx.client_id = true →
      process_transaction st tx = .ok st2 →
      heldInvariant st → txKeysOk st →
      (tx.amount.isSome = true →
        ∀ a ∈ st, txLookup a.transactions tx.transaction_id = none) →
      heldInvariant st2 ∧ txKeysOk st2 ∧
      ∀ a2 ∈ st2, ∀ k d, txLookup a2.transactions k = some d →
        (tx.amount.isSome = true ∧ k = tx.transaction_id) ∨
        ∃ a ∈ st, ∃ d2, txLookup a.transactions k = some d2 by
    by_cases hex : clientExists st tx.client_id = true
    · exact h st hex hok hInv hNd hFresh
    · have hex2 : clientExists st tx.client_id = false := by simpa using hex
      rw [pt_creation st tx hex2] at hok
      have hresult := h (st ++ [Account.new tx.client_id])
        (clientExists_append_new st tx.client_id) hok
        (by
          intro a ha
          rcases List.mem_append.mp ha with ha | ha
          · exact hInv a ha
          · simp at ha
            subst ha
            simp [Account.new, disputedSum])
        (by
          intro a ha
          rcases List.mem_append.mp ha with ha | ha
          · exact hNd a ha
          · simp at ha
            subst ha
            simp [Account.new, keysNodup])
        (by
          intro hs a ha
          rcases List.mem_append.mp ha with ha | ha
          · exact hFresh hs a ha
          · simp at ha
            subst ha
            simp [Account.new, txLookup])
      refine ⟨hresult.1, hresult.2.1, ?_⟩
      intro a2 ha2 k d hlkd
      rcases hresult.2.2 a2 ha2 k d hlkd with hcase | ⟨a, ha, d2, hlk2⟩
      · exact Or.inl hcase
      · rcases List.mem_append.mp ha with ha | ha
        · exact Or.inr ⟨a, ha, d2, hlk2⟩
        · simp at ha
          subst ha
          simp [Account.new, txLookup] at hlk2
  clear hok hInv hNd hFresh
  intro st hex hok hInv hNd hFresh
  obtain ⟨acc, hf⟩ := Option.isSome_iff_exists.mp
    (findAccount_isSome_of_clientExists st tx.client_id hex)
  have hmem : acc ∈ st := findAccount_mem st tx.client_id acc hf
  obtain ⟨ty, cid, t, amt⟩ := tx
  by_cases hl : acc.locked = true
  · rw [pt_locked st _ acc hv hf hl] at hok
    obtain rfl : st = st2 := by simpa using hok
    refine ⟨hInv, hNd, ?_⟩
    exact fun a2 ha2 k d hlkd => Or.inr ⟨a2, ha2, d, hlkd⟩
  have hl2 : acc.locked = false := by simpa using hl
  rcases is_valid_cases _ hv with ⟨a, hamt, hty⟩ | ⟨hamt, hty⟩
  · -- Deposit or Withdraw
    simp only at hamt
    subst hamt
    have hfr : txLookup acc.transactions t = none := hFresh (by simp) acc hmem
    -- in every subcase the new account value has held_balance and keys behaviour
    -- governed by `txInsert` of a fresh undisputed entry
    have main : ∀ accF : Account,
        accF.held_balance = acc.held_balance →
        accF.transactions = txInsert acc.transactions t (TransactionDetails.new a) →
        st2 = updateAccount st cid accF →
        heldInvariant st2 ∧ txKeysOk st2 ∧
        ∀ a2 ∈ st2, ∀ k d, txLookup a2.transactions k = some d →
          ((some a).isSome = true ∧ k = t) ∨
          ∃ a3 ∈ st, ∃ d2, txLookup a3.transactions k = some d2 := by
      intro accF hheld htxs hst2
      subst hst2
      refine ⟨?_, ?_, ?_⟩
      · intro a2 ha2
        rcases mem_updateAccount st cid accF a2 ha2 with rfl | ha2
        · rw [hheld, htxs, disputedSum_txInsert_new acc.transactions t a hfr]
          exact hInv acc hmem
        · exact hInv a2 ha2
      · intro a2 ha2
        rcases mem_updateAccount st cid accF a2 ha2 with rfl | ha2
        · rw [htxs]
          exact keysNodup_txInsert acc.transactions t _ (hNd acc hmem)
        · exact hNd a2 ha2
      · intro a2 ha2 k d hlkd
        rcases mem_updateAccount st cid accF a2 ha2 with rfl | ha2
        · by_cases hk : k = t
          · exact Or.inl ⟨by simp, hk⟩
          · rw [htxs, txLookup_txInsert_ne acc.transactions t _ k hk] at hlkd
            exact Or.inr ⟨acc, hmem, d, hlkd⟩
        · exact Or.inr ⟨a2, ha2, d, hlkd⟩
    rcases hty with hty | hty <;> simp only at hty <;> subst hty
    · -- Deposit
      rw [pt_deposit st cid t a acc hf hl2] at hok
      exact main
        { acc with
            transactions := txInsert acc.transactions t (TransactionDetails.new a)
            available_balance := acc.available_balance + a }
        rfl rfl (Except.ok.inj hok).symm
    · -- Withdraw
      by_cases hneg : acc.available_balance - a < 0
      · rw [pt_withdraw_insufficient st cid t a acc hf hl2 hneg] at hok
        exact main
          { acc with transactions := txInsert acc.transactions t (TransactionDetails.new a) }
          rfl rfl (Except.ok.inj hok).symm
      · rw [pt_withdraw_sufficient st cid t a acc hf hl2 hneg] at hok
        exact main
          { acc with
              transactions := txInsert acc.transactions t (TransactionDetails.new a)
              available_balance := acc.available_balance - a }
          rfl rfl (Except.ok.inj hok).symm
  · -- Dispute, Resolve or Chargeback
    simp only at hamt
    subst hamt
    -- common reasoning for the branches that modify the disputed flag of an
    -- existing entry and shift balances
    have main : ∀ (accF : Account) (d : TransactionDetails) (b : Bool),
        txLookup acc.transactions t = some d →
        accF.held_balance = disputedSum acc.transactions
          - (if d.disputed then d.amount else 0) + (if b then d.amount else 0) →
        accF.transactions = txSetDisputed acc.transactions t b →
        st2 = updateAccount st cid accF →
        heldInvariant st2 ∧ txKeysOk st2 ∧
        ∀ a2 ∈ st2, ∀ k d3, txLookup a2.transactions k = some d3 →
          ((none : Option ℚ).isSome = true ∧ k = t) ∨
          ∃ a3 ∈ st, ∃ d2, txLookup a3.transactions k = some d2 := by
      intro accF d b hlk hheld htxs hst2
      subst hst2
      refine ⟨?_, ?_, ?_⟩
      · intro a2 ha2
        rcases mem_updateAccount st cid accF a2 ha2 with rfl | ha2
        · rw [hheld, htxs, disputedSum_txSetDisputed acc.transactions t b d
            (hNd acc hmem) hlk]
        · exact hInv a2 ha2
      · intro a2 ha2
        rcases mem_updateAccount st cid accF a2 ha2 with rfl | ha2
        · rw [keysNodup, htxs, keys_txSetDisputed]
          exact hNd acc hmem
        · exact hNd a2 ha2
      · intro a2 ha2 k d3 hlkd
        rcases mem_updateAccount st cid accF a2 ha2 with rfl | ha2
        · by_cases hk : k = t
          · subst hk
            exact Or.inr ⟨acc, hmem, d, hlk⟩
          · rw [htxs, txLookup_txSetDisputed_ne acc.transactions t b k hk] at hlkd
            exact Or.inr ⟨acc, hmem, d3, hlkd⟩
        · exact Or.inr ⟨a2, ha2, d3, hlkd⟩
    have noop : st2 = st →
        heldInvariant st2 ∧ txKeysOk st2 ∧
        ∀ a2 ∈ st2, ∀ k d3, txLookup a2.transactions k = some d3 →
          ((none : Option ℚ).isSome = true ∧ k = t) ∨
          ∃ a3 ∈ st, ∃ d2, txLookup a3.transactions k = some d2 := by
      rintro rfl
      exact ⟨hInv, hNd, fun a2 ha2 k d3 hlkd => Or.inr ⟨a2, ha2, d3, hlkd⟩⟩
    rcases hty with hty | hty | hty <;> simp only at hty <;> subst hty
    · -- Dispute
      cases hlk : txLookup acc.transactions t with
      | none =>
        rw [pt_dispute_missing st cid t acc hf hl2 hlk] at hok
        exact noop (by simpa using hok.symm)
      | some d =>
        cases hd : d.disputed with
        | true =>
          rw [pt_dispute_redispute st cid t acc d hf hl2 hlk hd] at hok
          exact noop (by simpa using hok.symm)
        | false =>
          rw [pt_dispute_open st cid t acc d hf hl2 hlk hd] at hok
          refine main
            { acc with
                transactions := txSetDisputed acc.transactions t true
                available_balance := acc.available_balance - d.amount
                held_balance := acc.held_balance + d.amount }
            d true hlk ?_ rfl (Except.ok.inj hok).symm
          have := hInv acc hmem
          simp [hd, this]
    · -- Resolve
      cases hlk : txLookup acc.transactions t with
      | none =>
        rw [pt_resolve_missing st cid t acc hf hl2 hlk] at hok
        exact noop (by simpa using hok.symm)
      | some d =>
        cases hd : d.disputed with
        | false =>
          rw [pt_resolve_undisputed st cid t acc d hf hl2 hlk hd] at hok
          exact noop (by simpa using hok.symm)
        | true =>
          rw [pt_resolve_open st cid t acc d hf hl2 hlk hd] at hok
          refine main
            { acc with
                transactions := txSetDisputed acc.transactions t false
                available_balance := acc.available_balance + d.amount
                held_balance := acc.held_balance - d.amount }
            d false hlk ?_ rfl (Except.ok.inj hok).symm
          have := hInv acc hmem
          simp [hd, this]
    · -- Chargeback
      cases hlk : txLookup acc.transactions t with
      | none =>
        rw [pt_chargeback_missing st cid t acc hf hl2 hlk] at hok
        exact noop (by simpa using hok.symm)
      | some d =>
        cases hd : d.disputed with
        | false =>
          rw [pt_chargeback_undisputed st cid t acc d hf hl2 hlk hd] at hok
          exact noop (by simpa using hok.symm)
        | true =>
          rw [pt_chargeback_open st cid t acc d hf hl2 hlk hd] at hok
          refine main
            { acc with
                transactions := txSetDisputed acc.transactions t false
                held_balance := acc.held_balance - d.amount
                locked := true }
            d false hlk ?_ rfl (Except.ok.inj hok).symm
          have := hInv acc hmem
          simp [hd, this]

/-! ## Preservation of the held-balance invariant along a record sequence -/

theorem records_invariants (rs : List TransactionRecord) : ∀ st : List Account,
    heldInvariant st → txKeysOk st →
    (∀ a ∈ st, ∀ r2 ∈ rs, r2.amount.isSome = true →
      txLookup a.transactions r2.transaction_id = none) →
    (amtIds rs).Nodup →
    heldInvariant (process_records st rs).1 ∧ txKeysOk (process_records st rs).1 := by
  induction rs with
  | nil => exact fun st h1 h2 _ _ => ⟨h1, h2⟩
  | cons r rest ih =>
    intro st h1 h2 hFresh hnd
    cases hpt : process_transaction st r with
    | error e =>
      simp only [process_records, hpt]
      exact ⟨h1, h2⟩
    | ok st2 =>
      simp only [process_records, hpt]
      have hstep := step_invariants st st2 r hpt h1 h2
        (fun hs a ha => hFresh a ha r (by simp) hs)
      have hnd_rest : (amtIds rest).Nodup := by
        rw [amtIds_cons] at hnd
        by_cases hs : r.amount.isSome = true
        · rw [if_pos hs, List.nodup_cons] at hnd
          exact hnd.2
        · rwa [if_neg hs] at hnd
      have hnotin : r.amount.isSome = true → r.transaction_id ∉ amtIds rest := by
        intro hs
        rw [amtIds_cons, if_pos hs, List.nodup_cons] at hnd
        exact hnd.1
      refine ih st2 hstep.1 hstep.2.1 ?_ hnd_rest
      intro a2 ha2 r2 hr2 hs2
      cases hk : txLookup a2.transactions r2.transaction_id with
      | none => rfl
      | some d =>
        exfalso
        rcases hstep.2.2 a2 ha2 r2.transaction_id d hk with ⟨hsr, heq⟩ | ⟨a, ha, d2, hlk2⟩
        · exact hnotin hsr (heq ▸ mem_amtIds r2 rest hr2 hs2)
        · have := hFresh a ha r2 (by simp [hr2]) hs2
          rw [this] at hlk2
          exact Option.noConfusion hlk2

/-! ## Every valid record is processed without an error -/

theorem pt_ok_of_valid_found (st : List Account) (tx : TransactionRecord) (acc : Account)
    (hv : tx.is_valid = true) (hf : findAccount st tx.client_id = some acc) :
    ∃ st2, process_transaction st tx = .ok st2 := by
  obtain ⟨ty, cid, t, amt⟩ := tx
  by_cases hl : acc.locked = true
  · exact ⟨st, pt_locked st _ acc hv hf hl⟩
  have hl2 : acc.locked = false := by simpa using hl
  rcases is_valid_cases _ hv with ⟨a, hamt, hty⟩ | ⟨hamt, hty⟩
  · simp only at hamt
    subst hamt
    rcases hty with hty | hty <;> simp only at hty <;> subst hty
    · exact ⟨_, pt_deposit st cid t a acc hf hl2⟩
    · by_cases hneg : acc.available_balance - a < 0
      · exact ⟨_, pt_withdraw_insufficient st cid t a acc hf hl2 hneg⟩
      · exact ⟨_, pt_withdraw_sufficient st cid t a acc hf hl2 hneg⟩
  · simp only at hamt
    subst hamt
    rcases hty with hty | hty | hty <;> simp only at hty <;> subst hty
    · cases hlk : txLookup acc.transactions t with
      | none => exact ⟨st, pt_dispute_missing st cid t acc hf hl2 hlk⟩
      | some d =>
        cases hd : d.disputed with
        | true => exact ⟨st, pt_dispute_redispute st cid t acc d hf hl2 hlk hd⟩
        | false => exact ⟨_, pt_dispute_open st cid t acc d hf hl2 hlk hd⟩
    · cases hlk : txLookup acc.transactions t with
      | none => exact ⟨st, pt_resolve_missing st cid t acc hf hl2 hlk⟩
      | some d =>
        cases hd : d.disputed with
        | false => exact ⟨st, pt_resolve_undisputed st cid t acc d hf hl2 hlk hd⟩
        | true => exact ⟨_, pt_resolve_open st cid t acc d hf hl2 hlk hd⟩
    · cases hlk : txLookup acc.transactions t with
      | none => exact ⟨st, pt_chargeback_missing st cid t acc hf hl2 hlk⟩
      | some d =>
        cases hd : d.disputed with
        | false => exact ⟨st, pt_chargeback_undisputed st cid t acc d hf hl2 hlk hd⟩
        | true => exact ⟨_, pt_chargeback_open st cid t acc d hf hl2 hlk hd⟩

theorem pt_ok_of_valid (st : List Account) (tx : TransactionRecord)
    (hv : tx.is_valid = true) : ∃ st2, process_transaction st tx = .ok st2 := by
  by_cases hex : clientExists st tx.client_id = true
  · obtain ⟨acc, hf⟩ := Option.isSome_iff_exists.mp
      (findAccount_isSome_of_clientExists st tx.client_id hex)
    exact pt_ok_of_valid_found st tx acc hv hf
  · have hex2 : clientExists st tx.client_id = false := by simpa using hex
    rw [pt_creation st tx hex2]
    exact pt_ok_of_valid_found _ tx (Account.new tx.client_id) hv
      (findAccount_append_new st tx.client_id hex2)

/-! ## Fail-fast processing -/

theorem process_records_failfast (pre : List TransactionRecord) : ∀ st : List Account,
    ∀ (bad : TransactionRecord) (post : List TransactionRecord),
    (∀ r ∈ pre, r.is_valid = true) → bad.is_valid = false →
    process_records st (pre ++ bad :: post) =
      ((process_records st pre).1, .error "Invalid transaction.") := by
  induction pre with
  | nil =>
    intro st bad post _ hbad
    simp [process_records, pt_invalid st bad hbad]
  | cons r rest ih =>
    intro st bad post hpre hbad
    have hv : r.is_valid = true := hpre r (by simp)
    obtain ⟨st2, hok⟩ := pt_ok_of_valid st r hv
    simp only [List.cons_append, process_records, hok]
    exact ih st2 bad post (fun r2 h2 => hpre r2 (by simp [h2])) hbad

/-! ## Claims -/

/-- Claim C1, as stated, is false on the code: a Withdraw whose amount exceeds
the available balance of an unlocked account reports no error and leaves the
balances and the locked flag unchanged, but it does NOT leave the transactions
map unchanged — the entry recorded unconditionally in step 5 stays. Concrete
counterexample: an account with zero balances and empty map, withdrawing 5. -/
theorem c1_counterexample :
    (0 : ℚ) < 5 ∧
    process_transaction [⟨1, 0, 0, false, []⟩] ⟨.Withdraw, 1, 7, some 5⟩ =
      .ok [⟨1, 0, 0, false, [(7, ⟨5, false⟩)]⟩] ∧
    ([(7, (⟨5, false⟩ : TransactionDetails))] : List (Nat × TransactionDetails)) ≠ [] := by
  refine ⟨by norm_num, ?_, by simp⟩
  simp +decide [process_transaction, TransactionRecord.is_valid, clientExists, findAccount,
    updateAccount, txInsert, txLookup, txSetDisputed, Account.new, TransactionDetails.new,
    Rat.is_sign_negative]

/-- Claim C1 (amended): for every Withdraw whose amount exceeds the available
balance of an unlocked account, processing reports no error and leaves
`available_balance`, `held_balance` and `locked` unchanged; the only change is
that the transactions map now stores `TransactionDetails::new(amount)` under
the record's transaction id. -/
theorem c1_withdraw_insufficient_frame (st : List Account) (cid t : Nat) (a : ℚ)
    (acc : Account) (hf : findAccount st cid = some acc) (hl : acc.locked = false)
    (hgt : acc.available_balance < a) :
    ∃ st2, process_transaction st ⟨.Withdraw, cid, t, some a⟩ = .ok st2 ∧
      findAccount st2 cid = some
        { acc with transactions := txInsert acc.transactions t (TransactionDetails.new a) } := by
  have hneg : acc.available_balance - a < 0 := by linarith
  refine ⟨_, pt_withdraw_insufficient st cid t a acc hf hl hneg, ?_⟩
  exact findAccount_updateAccount_self st cid acc _ hf (findAccount_client_id st cid acc hf)

/-- Witness for C1 (amended) at a concrete input. -/
theorem c1_witness :
    findAccount [⟨1, 0, 0, false, []⟩] 1 = some ⟨1, 0, 0, false, []⟩ ∧
    (Account.mk 1 0 0 false []).locked = false ∧
    (Account.mk 1 0 0 false []).available_balance < 5 ∧
    ∃ st2, process_transaction [⟨1, 0, 0, false, []⟩] ⟨.Withdraw, 1, 7, some 5⟩ = .ok st2 ∧
      findAccount st2 1 = some ⟨1, 0, 0, false, [(7, ⟨5, false⟩)]⟩ := by
  refine ⟨by simp [findAccount], rfl, by norm_num, ?_⟩
  obtain ⟨st2, h1, h2⟩ := c1_withdraw_insufficient_frame [⟨1, 0, 0, false, []⟩] 1 7 5
    ⟨1, 0, 0, false, []⟩ (by simp [findAccount]) rfl (by norm_num)
  exact ⟨st2, h1, by simpa [txInsert, TransactionDetails.new] using h2⟩

/-- Claim C2: a Deposit or Withdraw applied to an unlocked account always
stores `TransactionDetails::new(amount)` (the amount, `disputed = false`) under
the record's transaction id — for a Withdraw this happens even when the
withdrawal is rejected for insufficient funds, since the insert precedes the
sufficiency check. -/
theorem c2_amount_recorded (st : List Account) (ty : TransactionType) (cid t : Nat) (a : ℚ)
    (acc : Account) (hty : ty = TransactionType.Deposit ∨ ty = TransactionType.Withdraw)
    (hf : findAccount st cid = some acc) (hl : acc.locked = false) :
    ∃ st2 acc2, process_transaction st ⟨ty, cid, t, some a⟩ = .ok st2 ∧
      findAccount st2 cid = some acc2 ∧
      txLookup acc2.transactions t = some (TransactionDetails.new a) := by
  have hcid := findAccount_client_id st cid acc hf
  rcases hty with rfl | rfl
  · exact ⟨_, _, pt_deposit st cid t a acc hf hl,
      findAccount_updateAccount_self st cid acc _ hf hcid,
      txLookup_txInsert_self acc.transactions t _⟩
  · by_cases hneg : acc.available_balance - a < 0
    · exact ⟨_, _, pt_withdraw_insufficient st cid t a acc hf hl hneg,
        findAccount_updateAccount_self st cid acc _ hf hcid,
        txLookup_txInsert_self acc.transactions t _⟩
    · exact ⟨_, _, pt_withdraw_sufficient st cid t a acc hf hl hneg,
        findAccount_updateAccount_self st cid acc _ hf hcid,
        txLookup_txInsert_self acc.transactions t _⟩

/-- Witness for C2 at a concrete input (a rejected withdrawal, the interesting
case: the transaction id is still recorded). -/
theorem c2_witness :
    ((TransactionType.Withdraw = TransactionType.Deposit ∨
        TransactionType.Withdraw = TransactionType.Withdraw) ∧
      findAccount [⟨1, 0, 0, false, []⟩] 1 = some ⟨1, 0, 0, false, []⟩ ∧
      (Account.mk 1 0 0 false []).locked = false) ∧
    ∃ st2 acc2, process_transaction [⟨1, 0, 0, false, []⟩] ⟨.Withdraw, 1, 9, some 3⟩ =
        .ok st2 ∧
      findAccount st2 1 = some acc2 ∧
      txLookup acc2.transactions 9 = some (TransactionDetails.new 3) := by
  refine ⟨⟨Or.inr rfl, by simp [findAccount], rfl⟩, ?_⟩
  exact c2_amount_recorded [⟨1, 0, 0, false, []⟩] .Withdraw 1 9 3 ⟨1, 0, 0, false, []⟩
    (Or.inr rfl) (by simp [findAccount]) rfl

/-- Claim C4: once an account is locked, every valid record targeting that
client is consumed successfully (`Ok`) and the entire registry state — in
particular that account's balances, locked flag and transactions map — is
unchanged; the locked flag therefore never returns to false. -/
theorem c4_locked_absorbing (st : List Account) (r : TransactionRecord) (acc : Account)
    (hv : r.is_valid = true) (hf : findAccount st r.client_id = some acc)
    (hl : acc.locked = true) :
    process_transaction st r = .ok st :=
  pt_locked st r acc hv hf hl

/-- Witness for C4 at a concrete input (deposit against a locked account). -/
theorem c4_witness :
    (⟨.Deposit, 7, 3, some 50⟩ : TransactionRecord).is_valid = true ∧
    findAccount [⟨7, 0, 10, true, [(1, ⟨10, false⟩)]⟩] 7 =
      some ⟨7, 0, 10, true, [(1, ⟨10, false⟩)]⟩ ∧
    (Account.mk 7 0 10 true [(1, ⟨10, false⟩)]).locked = true ∧
    process_transaction [⟨7, 0, 10, true, [(1, ⟨10, false⟩)]⟩] ⟨.Deposit, 7, 3, some 50⟩ =
      .ok [⟨7, 0, 10, true, [(1, ⟨10, false⟩)]⟩] :=
  ⟨rfl, by simp [findAccount], rfl,
    c4_locked_absorbing _ _ ⟨7, 0, 10, true, [(1, ⟨10, false⟩)]⟩ rfl (by simp [findAccount]) rfl⟩

/-- Claim C3, as stated (for EVERY sequence of records), is false on the code:
reusing the transaction id of a currently-disputed transaction in a fresh
Deposit overwrites the entry with `disputed = false` while `held_balance`
keeps the frozen amount, so afterwards `held_balance` (10) differs from the
sum of disputed amounts (0). -/
theorem c3_counterexample :
    (process_records [] [⟨.Deposit, 1, 1, some 10⟩, ⟨.Dispute, 1, 1, none⟩,
        ⟨.Deposit, 1, 1, some 20⟩]).1 = [⟨1, 10, 20, false, [(1, ⟨20, false⟩)]⟩] ∧
    (Account.mk 1 10 20 false [(1, ⟨20, false⟩)]).held_balance ≠
      disputedSum (Account.mk 1 10 20 false [(1, ⟨20, false⟩)]).transactions := by
  constructor
  · simp +decide [process_records, process_transaction, TransactionRecord.is_valid,
      clientExists, findAccount, updateAccount, txInsert, txLookup, txSetDisputed,
      Account.new, TransactionDetails.new, Rat.is_sign_negative]
  · show (10 : ℚ) ≠ disputedSum [(1, ⟨20, false⟩)]
    simp [disputedSum]

/-- Claim C3 (amended): provided the amount-carrying records of the input
sequence (Deposits and Withdraws, the only records that store map entries)
carry pairwise distinct transaction ids — the spec's §3 global-uniqueness
assumption — every account of the registry satisfies, after every prefix of
the sequence, `held_balance` = sum of `amount` over its disputed entries,
starting from the empty registry (accounts are created fresh and
zero-balanced). -/
theorem c3_held_invariant (p q : List TransactionRecord)
    (hnd : (amtIds (p ++ q)).Nodup) :
    ∀ a ∈ (process_records [] p).1, a.held_balance = disputedSum a.transactions := by
  have hsplit : amtIds (p ++ q) = amtIds p ++ amtIds q := by
    simp [amtIds, List.filter_append]
  rw [hsplit] at hnd
  have hp : (amtIds p).Nodup := List.Nodup.of_append_left hnd
  exact (records_invariants p [] (by intro a ha; simp at ha)
    (by intro a ha; simp at ha) (by intro a ha; simp at ha) hp).1

/-- Witness for C3 (amended) at a concrete input. -/
theorem c3_witness :
    (amtIds ([⟨.Deposit, 1, 1, some 10⟩, ⟨.Deposit, 1, 2, some 25⟩,
        ⟨.Dispute, 1, 2, none⟩] ++ [])).Nodup ∧
    ∀ a ∈ (process_records [] [⟨.Deposit, 1, 1, some 10⟩, ⟨.Deposit, 1, 2, some 25⟩,
        ⟨.Dispute, 1, 2, none⟩]).1, a.held_balance = disputedSum a.transactions :=
  ⟨by simp +decide [amtIds, List.filter],
    c3_held_invariant _ [] (by simp +decide [amtIds, List.filter])⟩

/-- Claim C5: Dispute followed by Resolve on a transaction id that is present
and undisputed restores `available_balance` and `held_balance` to exactly
their pre-dispute values (exact arithmetic on the rational model of amounts).
Both operations succeed; the locked and unlocked cases both restore. -/
theorem c5_dispute_resolve_roundtrip (st : List Account) (cid t : Nat) (acc : Account)
    (d : TransactionDetails) (hf : findAccount st cid = some acc)
    (hlk : txLookup acc.transactions t = some d) (hd : d.disputed = false) :
    ∃ st1 st2 acc2,
      process_transaction st ⟨.Dispute, cid, t, none⟩ = .ok st1 ∧
      process_transaction st1 ⟨.Resolve, cid, t, none⟩ = .ok st2 ∧
      findAccount st2 cid = some acc2 ∧
      acc2.available_balance = acc.available_balance ∧
      acc2.held_balance = acc.held_balance := by
  have hcid := findAccount_client_id st cid acc hf
  by_cases hl : acc.locked = true
  · exact ⟨st, st, acc, pt_locked st _ acc rfl hf hl, pt_locked st _ acc rfl hf hl,
      hf, rfl, rfl⟩
  · have hl2 : acc.locked = false := by simpa using hl
    have h1 := pt_dispute_open st cid t acc d hf hl2 hlk hd
    have hfD := findAccount_updateAccount_self st cid acc
      { acc with
          transactions := txSetDisputed acc.transactions t true
          available_balance := acc.available_balance - d.amount
          held_balance := acc.held_balance + d.amount } hf hcid
    have hlkD : txLookup (txSetDisputed acc.transactions t true) t =
        some ⟨d.amount, true⟩ :=
      txLookup_txSetDisputed_self acc.transactions t true d hlk
    have h2 := pt_resolve_open _ cid t _ ⟨d.amount, true⟩ hfD hl2 hlkD rfl
    refine ⟨_, _, _, h1, h2, findAccount_updateAccount_self _ cid _ _ hfD hcid, ?_, ?_⟩
    · show acc.available_balance - d.amount + d.amount = acc.available_balance
      ring
    · show acc.held_balance + d.amount - d.amount = acc.held_balance
      ring

/-- Witness for C5 at a concrete input. -/
theorem c5_witness :
    findAccount [⟨1, 0, 35, false, [(2, ⟨25, false⟩)]⟩] 1 =
      some ⟨1, 0, 35, false, [(2, ⟨25, false⟩)]⟩ ∧
    txLookup [(2, ⟨25, false⟩)] 2 = some ⟨25, false⟩ ∧
    (TransactionDetails.mk 25 false).disputed = false ∧
    ∃ st1 st2 acc2,
      process_transaction [⟨1, 0, 35, false, [(2, ⟨25, false⟩)]⟩] ⟨.Dispute, 1, 2, none⟩ =
        .ok st1 ∧
      process_transaction st1 ⟨.Resolve, 1, 2, none⟩ = .ok st2 ∧
      findAccount st2 1 = some acc2 ∧
      acc2.available_balance = (35 : ℚ) ∧ acc2.held_balance = (0 : ℚ) :=
  ⟨by simp [findAccount], by simp [txLookup], rfl,
    c5_dispute_resolve_roundtrip [⟨1, 0, 35, false, [(2, ⟨25, false⟩)]⟩] 1 2
      ⟨1, 0, 35, false, [(2, ⟨25, false⟩)]⟩ ⟨25, false⟩
      (by simp [findAccount]) (by simp [txLookup]) rfl⟩

/-- Claim C6: the business no-ops of the dispute family — a Dispute whose
transaction id is absent or already disputed, and a Resolve or Chargeback
whose transaction id is absent or not currently disputed — return success and
leave the registry, in particular the target account, entirely unchanged. -/
theorem c6_dispute_family_noop (st : List Account) (r : TransactionRecord) (acc : Account)
    (hf : findAccount st r.client_id = some acc) (hamt : r.amount = none)
    (hcond :
      (r.type = TransactionType.Dispute ∧
        ∀ d, txLookup acc.transactions r.transaction_id = some d → d.disputed = true) ∨
      ((r.type = TransactionType.Resolve ∨ r.type = TransactionType.Chargeback) ∧
        ∀ d, txLookup acc.transactions r.transaction_id = some d → d.disputed = false)) :
    process_transaction st r = .ok st := by
  obtain ⟨ty, cid, t, amt⟩ := r
  simp only at hamt hcond hf
  subst hamt
  rcases hcond with ⟨hty, hcd⟩ | ⟨hty, hcd⟩
  · subst hty
    by_cases hl : acc.locked = true
    · exact pt_locked st _ acc rfl hf hl
    · have hl2 : acc.locked = false := by simpa using hl
      cases hlk : txLookup acc.transactions t with
      | none => exact pt_dispute_missing st cid t acc hf hl2 hlk
      | some d => exact pt_dispute_redispute st cid t acc d hf hl2 hlk (hcd d hlk)
  · rcases hty with hty | hty <;> subst hty
    · by_cases hl : acc.locked = true
      · exact pt_locked st _ acc rfl hf hl
      · have hl2 : acc.locked = false := by simpa using hl
        cases hlk : txLookup acc.transactions t with
        | none => exact pt_resolve_missing st cid t acc hf hl2 hlk
        | some d => exact pt_resolve_undisputed st cid t acc d hf hl2 hlk (hcd d hlk)
    · by_cases hl : acc.locked = true
      · exact pt_locked st _ acc rfl hf hl
      · have hl2 : acc.locked = false := by simpa using hl
        cases hlk : txLookup acc.transactions t with
        | none => exact pt_chargeback_missing st cid t acc hf hl2 hlk
        | some d => exact pt_chargeback_undisputed st cid t acc d hf hl2 hlk (hcd d hlk)

/-- Witness for C6 at a concrete input (resolve of a never-disputed id). -/
theorem c6_witness :
    findAccount [⟨1, 0, 35, false, [(2, ⟨25, false⟩)]⟩] 1 =
      some ⟨1, 0, 35, false, [(2, ⟨25, false⟩)]⟩ ∧
    (⟨.Resolve, 1, 2, none⟩ : TransactionRecord).amount = none ∧
    (∀ d, txLookup [(2, ⟨25, false⟩)] 2 = some d → d.disputed = false) ∧
    process_transaction [⟨1, 0, 35, false, [(2, ⟨25, false⟩)]⟩] ⟨.Resolve, 1, 2, none⟩ =
      .ok [⟨1, 0, 35, false, [(2, ⟨25, false⟩)]⟩] := by
  have hcd : ∀ d, txLookup [(2, (⟨25, false⟩ : TransactionDetails))] 2 = some d →
      d.disputed = false := by
    intro d hd
    simp [txLookup] at hd
    rw [← hd]
  exact ⟨by simp [findAccount], rfl, hcd,
    c6_dispute_family_noop [⟨1, 0, 35, false, [(2, ⟨25, false⟩)]⟩] ⟨.Resolve, 1, 2, none⟩
      ⟨1, 0, 35, false, [(2, ⟨25, false⟩)]⟩ (by simp [findAccount]) rfl
      (Or.inr ⟨Or.inl rfl, hcd⟩)⟩

/-- Claim C7: if some record of the input fails `is_valid`, `process_records`
stops at it and returns the error to the caller; the invalid record and all
records after it cause no mutation, while the state produced by the previously
applied (valid) records is kept as is — no rollback. -/
theorem c7_invalid_failfast (st : List Account) (pre post : List TransactionRecord)
    (bad : TransactionRecord) (hpre : ∀ r ∈ pre, r.is_valid = true)
    (hbad : bad.is_valid = false) :
    process_records st (pre ++ bad :: post) =
      ((process_records st pre).1, .error "Invalid transaction.") :=
  process_records_failfast pre st bad post hpre hbad

/-- Witness for C7 at a concrete input (valid deposit, then an amount-less
deposit, then another valid deposit that must not be processed). -/
theorem c7_witness :
    (∀ r ∈ [(⟨.Deposit, 1, 1, some 10⟩ : TransactionRecord)], r.is_valid = true) ∧
    (⟨.Deposit, 1, 2, none⟩ : TransactionRecord).is_valid = false ∧
    process_records []
        ([⟨.Deposit, 1, 1, some 10⟩] ++ ⟨.Deposit, 1, 2, none⟩ :: [⟨.Deposit, 1, 3, some 5⟩]) =
      ((process_records [] [⟨.Deposit, 1, 1, some 10⟩]).1, .error "Invalid transaction.") :=
  ⟨by simp +decide, rfl,
    c7_invalid_failfast [] [⟨.Deposit, 1, 1, some 10⟩] [⟨.Deposit, 1, 3, some 5⟩]
      ⟨.Deposit, 1, 2, none⟩ (by simp +decide) rfl⟩

/-- Claim C9: a Deposit or Withdraw to an unlocked account whose map already
holds the record's transaction id replaces the stored details with a fresh
entry (the new amount, `disputed = false`) without touching `held_balance` —
for a Withdraw in both the accepted and the rejected-for-insufficient-funds
branch; in particular a record reusing a currently-disputed id clears the
disputed flag while `held_balance` keeps the frozen amount, so the
held-balance invariant is broken after the concrete reuse sequence shown in
the second conjunct. -/
theorem c9_reused_id_overwrites (st : List Account) (ty : TransactionType) (cid t : Nat)
    (a : ℚ) (acc : Account) (d : TransactionDetails)
    (hty : ty = TransactionType.Deposit ∨ ty = TransactionType.Withdraw)
    (hf : findAccount st cid = some acc) (hl : acc.locked = false)
    (hlk : txLookup acc.transactions t = some d) :
    (∃ st2 acc2, process_transaction st ⟨ty, cid, t, some a⟩ = .ok st2 ∧
      findAccount st2 cid = some acc2 ∧
      txLookup acc2.transactions t = some (TransactionDetails.new a) ∧
      acc2.held_balance = acc.held_balance) ∧
    (∃ A : Account, (process_records [] [⟨.Deposit, 1, 1, some 10⟩, ⟨.Dispute, 1, 1, none⟩,
        ⟨.Deposit, 1, 1, some 20⟩]).1 = [A] ∧
      A.held_balance ≠ disputedSum A.transactions) := by
  constructor
  · have hcid := findAccount_client_id st cid acc hf
    rcases hty with rfl | rfl
    · exact ⟨_, _, pt_deposit st cid t a acc hf hl,
        findAccount_updateAccount_self st cid acc _ hf hcid,
        txLookup_txInsert_self acc.transactions t _, rfl⟩
    · by_cases hneg : acc.available_balance - a < 0
      · exact ⟨_, _, pt_withdraw_insufficient st cid t a acc hf hl hneg,
          findAccount_updateAccount_self st cid acc _ hf hcid,
          txLookup_txInsert_self acc.transactions t _, rfl⟩
      · exact ⟨_, _, pt_withdraw_sufficient st cid t a acc hf hl hneg,
          findAccount_updateAccount_self st cid acc _ hf hcid,
          txLookup_txInsert_self acc.transactions t _, rfl⟩
  · refine ⟨⟨1, 10, 20, false, [(1, ⟨20, false⟩)]⟩, ?_, ?_⟩
    · simp +decide [process_records, process_transaction, TransactionRecord.is_valid,
        clientExists, findAccount, updateAccount, txInsert, txLookup, txSetDisputed,
        Account.new, TransactionDetails.new, Rat.is_sign_negative]
    · show (10 : ℚ) ≠ disputedSum [(1, ⟨20, false⟩)]
      simp [disputedSum]

/-- Witness for C9 at a concrete input: a Withdraw reusing a currently-disputed
transaction id (the withdrawal itself is rejected for insufficient funds, yet
the entry is still overwritten with `disputed = false` and `held_balance` is
untouched). -/
theorem c9_witness :
    (TransactionType.Withdraw = TransactionType.Deposit ∨
      TransactionType.Withdraw = TransactionType.Withdraw) ∧
    findAccount [⟨1, 10, 0, false, [(1, ⟨10, true⟩)]⟩] 1 =
      some ⟨1, 10, 0, false, [(1, ⟨10, true⟩)]⟩ ∧
    (Account.mk 1 10 0 false [(1, ⟨10, true⟩)]).locked = false ∧
    txLookup [(1, ⟨10, true⟩)] 1 = some ⟨10, true⟩ ∧
    ((∃ st2 acc2,
        process_transaction [⟨1, 10, 0, false, [(1, ⟨10, true⟩)]⟩] ⟨.Withdraw, 1, 1, some 20⟩ =
          .ok st2 ∧
        findAccount st2 1 = some acc2 ∧
        txLookup acc2.transactions 1 = some (TransactionDetails.new 20) ∧
        acc2.held_balance = (10 : ℚ)) ∧
      (∃ A : Account, (process_records [] [⟨.Deposit, 1, 1, some 10⟩, ⟨.Dispute, 1, 1, none⟩,
          ⟨.Deposit, 1, 1, some 20⟩]).1 = [A] ∧
        A.held_balance ≠ disputedSum A.transactions)) :=
  ⟨Or.inr rfl, by simp [findAccount], rfl, by simp [txLookup],
    c9_reused_id_overwrites [⟨1, 10, 0, false, [(1, ⟨10, true⟩)]⟩] .Withdraw 1 1 20
      ⟨1, 10, 0, false, [(1, ⟨10, true⟩)]⟩ ⟨10, true⟩ (Or.inr rfl)
      (by simp [findAccount]) rfl (by simp [txLookup])⟩

/-- Claim C10, as stated, is false on the code: `is_valid` indeed ignores the
amount's value, and a negative Deposit indeed lowers `available_balance`, but
a negative-amount Withdraw does NOT always pass the insufficiency check: on an
account whose available balance is negative (reachable by disputing a deposit
that was already withdrawn), `available - amount` is still negative, the
withdrawal is rejected, and `available_balance` is not increased. -/
theorem c10_counterexample :
    (⟨.Withdraw, 1, 3, some (-1)⟩ : TransactionRecord).is_valid = true ∧
    (process_records [] [⟨.Deposit, 1, 1, some 10⟩, ⟨.Withdraw, 1, 2, some 10⟩,
        ⟨.Dispute, 1, 1, none⟩]).1 =
      [⟨1, 10, -10, false, [(1, ⟨10, true⟩), (2, ⟨10, false⟩)]⟩] ∧
    process_transaction [⟨1, 10, -10, false, [(1, ⟨10, true⟩), (2, ⟨10, false⟩)]⟩]
        ⟨.Withdraw, 1, 3, some (-1)⟩ =
      .ok [⟨1, 10, -10, false, [(1, ⟨10, true⟩), (2, ⟨10, false⟩), (3, ⟨-1, false⟩)]⟩] ∧
    ((-10 : ℚ) - (-1) < 0) ∧
    ¬ ((-10 : ℚ) < -10) := by
  refine ⟨rfl, ?_, ?_, by norm_num, by norm_num⟩
  · simp +decide [process_records, process_transaction, TransactionRecord.is_valid,
      clientExists, findAccount, updateAccount, txInsert, txLookup, txSetDisputed,
      Account.new, TransactionDetails.new, Rat.is_sign_negative]
  · simp +decide [process_transaction, TransactionRecord.is_valid, clientExists,
      findAccount, updateAccount, txInsert, txLookup, txSetDisputed, Account.new,
      TransactionDetails.new, Rat.is_sign_negative]

/-- Claim C10 (amended): `is_valid` never inspects the numeric value of the
amount; a Deposit with a negative amount is valid and strictly decreases
`available_balance` (by the amount's magnitude); a Withdraw with a negative
amount is valid and — whenever `available - amount` is non-negative, which
holds in particular whenever `available_balance` is non-negative, but can fail
on a negative balance — passes the insufficiency check and strictly increases
`available_balance`. -/
theorem c10_negative_amounts (st : List Account) (cid t : Nat) (a b : ℚ) (acc : Account)
    (hf : findAccount st cid = some acc) (hl : acc.locked = false) :
    (∀ ty : TransactionType, (⟨ty, cid, t, some a⟩ : TransactionRecord).is_valid =
        (⟨ty, cid, t, some b⟩ : TransactionRecord).is_valid) ∧
    (a < 0 → ∃ st2 acc2, process_transaction st ⟨.Deposit, cid, t, some a⟩ = .ok st2 ∧
        findAccount st2 cid = some acc2 ∧
        acc2.available_balance = acc.available_balance + a ∧
        acc2.available_balance < acc.available_balance) ∧
    (a < 0 → ¬ acc.available_balance - a < 0 →
      ∃ st2 acc2, process_transaction st ⟨.Withdraw, cid, t, some a⟩ = .ok st2 ∧
        findAccount st2 cid = some acc2 ∧
        acc2.available_balance = acc.available_balance - a ∧
        acc.available_balance < acc2.available_balance) := by
  have hcid := findAccount_client_id st cid acc hf
  refine ⟨fun ty => by cases ty <;> rfl, ?_, ?_⟩
  · intro ha
    refine ⟨_, _, pt_deposit st cid t a acc hf hl,
      findAccount_updateAccount_self st cid acc _ hf hcid, rfl, ?_⟩
    show acc.available_balance + a < acc.available_balance
    linarith
  · intro ha hpos
    refine ⟨_, _, pt_withdraw_sufficient st cid t a acc hf hl hpos,
      findAccount_updateAccount_self st cid acc _ hf hcid, rfl, ?_⟩
    show acc.available_balance < acc.available_balance - a
    linarith

/-- Witness for C10 (amended) at a concrete input. -/
theorem c10_witness :
    findAccount [⟨1, 0, 4, false, []⟩] 1 = some ⟨1, 0, 4, false, []⟩ ∧
    (Account.mk 1 0 4 false []).locked = false ∧
    ((∀ ty : TransactionType, (⟨ty, 1, 5, some (-2)⟩ : TransactionRecord).is_valid =
        (⟨ty, 1, 5, some 3⟩ : TransactionRecord).is_valid) ∧
      ((-2 : ℚ) < 0 → ∃ st2 acc2,
        process_transaction [⟨1, 0, 4, false, []⟩] ⟨.Deposit, 1, 5, some (-2)⟩ = .ok st2 ∧
        findAccount st2 1 = some acc2 ∧
        acc2.available_balance = (4 : ℚ) + (-2) ∧
        acc2.available_balance < (4 : ℚ)) ∧
      ((-2 : ℚ) < 0 → ¬ ((4 : ℚ) - (-2) < 0) → ∃ st2 acc2,
        process_transaction [⟨1, 0, 4, false, []⟩] ⟨.Withdraw, 1, 5, some (-2)⟩ = .ok st2 ∧
        findAccount st2 1 = some acc2 ∧
        acc2.available_balance = (4 : ℚ) - (-2) ∧
        (4 : ℚ) < acc2.available_balance)) :=
  ⟨by simp [findAccount], rfl,
    c10_negative_amounts [⟨1, 0, 4, false, []⟩] 1 5 (-2) 3 ⟨1, 0, 4, false, []⟩
      (by simp [findAccount]) rfl⟩
